import Mathlib

/-
  Verification of the Spatial_Slice library: a 2-dimensional dense grid
  (`Space<T>`) with read-only views (`SubSpace`), mutable views
  (`SubSpaceMut`) and split/partition operations.

  The Rust sources are embedded shallowly:
  * machine integers (`usize`) become `Nat`; a `usize` subtraction that can
    underflow (a panic in debug builds) is modelled by an explicit guard
    returning `none`;
  * `panic!` becomes `none` (an `Option` result);
  * in-place mutation becomes explicit state passing: `Space::set` returns
    the success flag together with the updated space, and a mutable view
    carries the space it aliases, `SubSpaceMut::set` returning the updated
    view.
-/

namespace SpatialSlice

/-- Rust `Space<T>` (src/src/lib.rs): a rectangular 2-dimensional array.
The Rust field `data: Box<[T]>` becomes a `List T`; the invariant
`data.length = width * height` is carried as a hypothesis where needed. -/
structure Space (T : Type) where
  data : List T
  width : Nat
  height : Nat
deriving DecidableEq, Repr

/-- Rust `PostioningType` (src/src/primitives.rs): how to interpret an X/Y
coordinate in a slice. -/
inductive PostioningType where
  | Absolute
  | Relative
deriving DecidableEq, Repr

/-- Rust `Space::get` (src/src/lib.rs): `self.data.get(y * self.width + x)`.
Note the source performs no per-axis bound check: only the flat index is
checked against the buffer length. -/
def Space.get (s : Space T) (x y : Nat) : Option T :=
  s.data[y * s.width + x]?

/-- Rust `Space::set` (src/src/lib.rs): writes `data[y*width+x]` and returns
`true` when the flat index is within the buffer, otherwise returns `false`
without mutating. -/
def Space.set (s : Space T) (x y : Nat) (value : T) : Bool × Space T :=
  let index := y * s.width + x
  if index < s.data.length then
    (true, { s with data := s.data.set index value })
  else
    (false, s)

/-- The invocation sequence of the generator in `Space::new_mapped`
(src/src/lib.rs): `for y in 0..height { for x in 0..width { push f(x,y) } }`,
as the list of `(x, y)` arguments in call order. -/
def new_mappedCalls (w h : Nat) : List (Nat × Nat) :=
  ((List.range h).map (fun y => (List.range w).map (fun x => (x, y)))).flatten

/-- Rust `Space::new_mapped` (src/src/lib.rs): builds the buffer by the double
loop `for y in 0..height { for x in 0..width { vec.push(func(x,y)) } }`. -/
def Space.new_mapped (f : Nat → Nat → T) (w h : Nat) : Space T :=
  ⟨((List.range h).map (fun y => (List.range w).map (fun x => f x y))).flatten, w, h⟩

/-- Rust `SubSpace<'a, T>` (src/src/subspace.rs): a read-only view of a
subspace of some parent space.  The Rust reference `parent: &'a Space<T>`
becomes the space value itself (it cannot change while the shared borrow
is live). -/
structure SubSpace (T : Type) where
  parent : Space T
  x : Nat
  y : Nat
  width : Nat
  height : Nat
deriving DecidableEq, Repr

/-- Rust `Space::as_subspace` (src/src/subspace.rs). -/
def Space.as_subspace (s : Space T) : SubSpace T :=
  ⟨s, 0, 0, s.width, s.height⟩

/-- Rust `SubSpace::convert_coord` (src/src/subspace.rs). -/
def SubSpace.convert_coord (v : SubSpace T) (pt : PostioningType) (x y : Nat) :
    Option (Nat × Nat) :=
  match pt with
  | .Absolute =>
    if x < v.x ∨ x ≥ v.x + v.width ∨ y < v.y ∨ y ≥ v.y + v.height then
      none
    else
      some (x, y)
  | .Relative =>
    if x > v.width ∨ y > v.height then
      none
    else
      some (v.x + x, v.y + y)

/-- Rust `SubSpace::get` (src/src/subspace.rs): resolve the coordinate, then
delegate to the parent space's `get`. -/
def SubSpace.get (v : SubSpace T) (pt : PostioningType) (x y : Nat) : Option T :=
  (v.convert_coord pt x y).bind fun p => v.parent.get p.1 p.2

/-- The `right_x` / `below_y` computation shared by every split
(src/src/subspace.rs and src/src/subspace_mut.rs):
`match pos_type { Absolute => value, Relative => origin + value }`. -/
def resolveSplitCoord (origin : Nat) (pt : PostioningType) (value : Nat) : Nat :=
  match pt with
  | .Absolute => value
  | .Relative => origin + value

/-- Rust `SubSpace::split_horizontal` (src/src/subspace.rs).  `none` models the
explicit `panic!` when `right_x > self.width`, and also the `usize`
underflow of `right_x - left_x` when `right_x < self.x` (a panic in debug
builds). -/
def SubSpace.split_horizontal (v : SubSpace T) (pt : PostioningType) (x_value : Nat) :
    Option (SubSpace T × SubSpace T) :=
  let left_x := v.x
  let right_x := resolveSplitCoord v.x pt x_value
  if right_x > v.width then
    none
  else if right_x < left_x then
    none
  else
    let left_width := right_x - left_x
    let right_width := v.width - left_width
    some (⟨v.parent, left_x, v.y, left_width, v.height⟩,
          ⟨v.parent, right_x, v.y, right_width, v.height⟩)

/-- Rust `SubSpace::split_vertical` (src/src/subspace.rs), symmetric on the
y-axis. -/
def SubSpace.split_vertical (v : SubSpace T) (pt : PostioningType) (y_value : Nat) :
    Option (SubSpace T × SubSpace T) :=
  let above_y := v.y
  let below_y := resolveSplitCoord v.y pt y_value
  if below_y > v.height then
    none
  else if below_y < above_y then
    none
  else
    let above_height := below_y - above_y
    let below_height := v.height - above_height
    some (⟨v.parent, v.x, above_y, v.width, above_height⟩,
          ⟨v.parent, v.x, below_y, v.width, below_height⟩)

/-- The cursor of `SubSpaceIter` (src/src/subspace.rs); the `parent` field
is passed explicitly to `next`. -/
structure SubSpaceIter where
  x : Nat
  y : Nat
deriving DecidableEq, Repr

/-- Rust `SubSpace::iter` (src/src/subspace.rs): the iterator starts at (0,0). -/
def SubSpace.iter (_v : SubSpace T) : SubSpaceIter :=
  ⟨0, 0⟩

/-- Rust `SubSpaceIter::next` (src/src/subspace.rs): reads the current relative
coordinate, then advances, wrapping x when it reaches `width - 1`.  When
`width = 0` the unguarded `self.parent.width - 1` underflows (a debug-build
panic), modelled as `none`; otherwise the call returns the yielded
`Option` item and the advanced cursor. -/
def SubSpaceIter.next (v : SubSpace T) (st : SubSpaceIter) :
    Option (Option T × SubSpaceIter) :=
  let result := v.get .Relative st.x st.y
  if v.width = 0 then
    none
  else if st.x = v.width - 1 then
    some (result, ⟨0, st.y + 1⟩)
  else
    some (result, ⟨st.x + 1, st.y⟩)

/-- Modelled from the spec: `Space::clone_from_iter` (the spec's
`create_from_sequence`) is called by `SubSpace::as_space`
(src/src/subspace.rs) but its definition is not under src/.  Per the spec
it consumes exactly `width*height` items from the sequence in order and
fails ("insufficient data") when the sequence is exhausted early.  This is
its item-collection loop: `clone_from_iterAux v n st` pulls `n` items from
the iterator; `none` covers both the construction failure and an iterator
abort. -/
def clone_from_iterAux (v : SubSpace T) : Nat → SubSpaceIter → Option (List T)
  | 0, _ => some []
  | n + 1, st =>
    match SubSpaceIter.next v st with
    | none => none
    | some (none, _) => none
    | some (some a, st') => (clone_from_iterAux v n st').map (fun l => a :: l)

/-- Rust `SubSpace::as_space` (src/src/subspace.rs):
`Space::clone_from_iter(&mut self.iter(), self.width, self.height).unwrap()`.
The `.unwrap()` panic on construction failure is modelled by the `Option`. -/
def SubSpace.as_space (v : SubSpace T) : Option (Space T) :=
  (clone_from_iterAux v (v.width * v.height) v.iter).map
    (fun l => ⟨l, v.width, v.height⟩)

/-- Rust `SubSpaceMut<'a, T>` (src/src/subspace_mut.rs): a mutable view of a
subspace of some parent space.  The raw pointer `parent: *mut Space<T>`
becomes the space value carried as explicit state: reading goes through
`parent`, writing returns the view with `parent` updated, and the sharing
of one space by both children of a split is rendered by threading the
updated space into the sibling's `parent` field. -/
structure SubSpaceMut (T : Type) where
  parent : Space T
  x : Nat
  y : Nat
  width : Nat
  height : Nat
deriving DecidableEq, Repr

/-- Rust `Space::as_subspace_mut` (src/src/subspace_mut.rs). -/
def Space.as_subspace_mut (s : Space T) : SubSpaceMut T :=
  ⟨s, 0, 0, s.width, s.height⟩

/-- Rust `SubSpaceMut::convert_coord` (src/src/subspace_mut.rs); the body is
identical to `SubSpace::convert_coord`. -/
def SubSpaceMut.convert_coord (v : SubSpaceMut T) (pt : PostioningType) (x y : Nat) :
    Option (Nat × Nat) :=
  match pt with
  | .Absolute =>
    if x < v.x ∨ x ≥ v.x + v.width ∨ y < v.y ∨ y ≥ v.y + v.height then
      none
    else
      some (x, y)
  | .Relative =>
    if x > v.width ∨ y > v.height then
      none
    else
      some (v.x + x, v.y + y)

/-- Rust `SubSpaceMut::get` (src/src/subspace_mut.rs). -/
def SubSpaceMut.get (v : SubSpaceMut T) (pt : PostioningType) (x y : Nat) : Option T :=
  (v.convert_coord pt x y).bind fun p => v.parent.get p.1 p.2

/-- Rust `SubSpaceMut::set` (src/src/subspace_mut.rs): resolve the coordinate,
then delegate to the parent space's `set`; returns the success flag and
the view with its parent space updated. -/
def SubSpaceMut.set (v : SubSpaceMut T) (pt : PostioningType) (x y : Nat) (value : T) :
    Bool × SubSpaceMut T :=
  match v.convert_coord pt x y with
  | some p =>
    let r := v.parent.set p.1 p.2 value
    (r.1, { v with parent := r.2 })
  | none => (false, v)

/-- Rust `SubSpaceMut::split_horizontal` (src/src/subspace_mut.rs); same
geometry as the read-only split, both children aliasing `self.parent`. -/
def SubSpaceMut.split_horizontal (v : SubSpaceMut T) (pt : PostioningType) (x_value : Nat) :
    Option (SubSpaceMut T × SubSpaceMut T) :=
  let left_x := v.x
  let right_x := resolveSplitCoord v.x pt x_value
  if right_x > v.width then
    none
  else if right_x < left_x then
    none
  else
    let left_width := right_x - left_x
    let right_width := v.width - left_width
    some (⟨v.parent, left_x, v.y, left_width, v.height⟩,
          ⟨v.parent, right_x, v.y, right_width, v.height⟩)

/-- Rust `SubSpaceMut::split_vertical` (src/src/subspace_mut.rs). -/
def SubSpaceMut.split_vertical (v : SubSpaceMut T) (pt : PostioningType) (y_value : Nat) :
    Option (SubSpaceMut T × SubSpaceMut T) :=
  let above_y := v.y
  let below_y := resolveSplitCoord v.y pt y_value
  if below_y > v.height then
    none
  else if below_y < above_y then
    none
  else
    let above_height := below_y - above_y
    let below_height := v.height - above_height
    some (⟨v.parent, v.x, above_y, v.width, above_height⟩,
          ⟨v.parent, v.x, below_y, v.width, below_height⟩)

/-- Membership in a read-only view's half-open rectangle, in absolute grid
coordinates: the parent cells the view's geometry designates. -/
def SubSpace.memRect (v : SubSpace T) (a b : Nat) : Prop :=
  v.x ≤ a ∧ a < v.x + v.width ∧ v.y ≤ b ∧ b < v.y + v.height

instance (v : SubSpace T) (a b : Nat) : Decidable (v.memRect a b) := by
  unfold SubSpace.memRect; infer_instance

/-- Membership in a mutable view's half-open rectangle, in absolute grid
coordinates. -/
def SubSpaceMut.memRect (v : SubSpaceMut T) (a b : Nat) : Prop :=
  v.x ≤ a ∧ a < v.x + v.width ∧ v.y ≤ b ∧ b < v.y + v.height

instance (v : SubSpaceMut T) (a b : Nat) : Decidable (v.memRect a b) := by
  unfold SubSpaceMut.memRect; infer_instance

/-- Iterating `SubSpaceIter::next` `k` times from a cursor, keeping only
the cursor (`none` once any step aborts). -/
def iterStepsFrom (v : SubSpace T) (st : SubSpaceIter) : Nat → Option SubSpaceIter
  | 0 => some st
  | k + 1 =>
    (iterStepsFrom v st k).bind fun st' => (SubSpaceIter.next v st').map Prod.snd

/-- The item yielded by the `(k+1)`-th call to `next` on `v.iter()`
(`none` when some call aborts; `some none` when that call yields the empty
result). -/
def iterResultAt (v : SubSpace T) (k : Nat) : Option (Option T) :=
  (iterStepsFrom v v.iter k).bind fun st => (SubSpaceIter.next v st).map Prod.fst

/-! ### Helper lemmas -/

/-- Row-major flat indices are injective on in-range columns. -/
theorem rowMajorIndex_inj {w x x' y y' : Nat} (hx : x < w) (hx' : x' < w)
    (h : y * w + x = y' * w + x') : x = x' ∧ y = y' := by
  have hw : 0 < w := Nat.lt_of_le_of_lt (Nat.zero_le x) hx
  have e1 : (y * w + x) % w = x := by
    rw [Nat.mul_comm y w, Nat.mul_add_mod, Nat.mod_eq_of_lt hx]
  have e2 : (y' * w + x') % w = x' := by
    rw [Nat.mul_comm y' w, Nat.mul_add_mod, Nat.mod_eq_of_lt hx']
  have ex : x = x' := by rw [← e1, ← e2, h]
  refine ⟨ex, ?_⟩
  subst ex
  have : y * w = y' * w := by omega
  exact Nat.eq_of_mul_eq_mul_right hw this

/-- An in-range row-major flat index is below the buffer length. -/
theorem rowMajorIndex_lt {w h x y : Nat} (hx : x < w) (hy : y < h) :
    y * w + x < w * h := by
  calc y * w + x < y * w + w := Nat.add_lt_add_left hx _
    _ = (y + 1) * w := (Nat.succ_mul y w).symm
    _ ≤ h * w := Nat.mul_le_mul_right w hy
    _ = w * h := Nat.mul_comm h w

/-- Indexing into a flattened list of `h` rows of uniform width `w`. -/
theorem flatten_range_getElem {α : Type} (g : Nat → List α) (w : Nat)
    (hg : ∀ y, (g y).length = w) (h x y : Nat) (hx : x < w) (hy : y < h) :
    (((List.range h).map g).flatten)[y * w + x]? = (g y)[x]? := by
  induction h with
  | zero => omega
  | succ n ih =>
    rw [List.range_succ, List.map_append, List.flatten_append]
    have hlenpre : ((List.range n).map g).flatten.length = n * w := by
      rw [List.length_flatten, List.map_map]
      have : (List.map (List.length ∘ g) (List.range n)) =
          List.map (fun _ => w) (List.range n) := by
        apply List.map_congr_left
        intro a _
        exact hg a
      rw [this]
      simp [Nat.mul_comm]
    rcases Nat.lt_or_ge y n with hyn | hyn
    · have hidx : y * w + x < ((List.range n).map g).flatten.length := by
        rw [hlenpre]
        calc y * w + x < y * w + w := Nat.add_lt_add_left hx _
          _ = (y + 1) * w := (Nat.succ_mul y w).symm
          _ ≤ n * w := Nat.mul_le_mul_right w hyn
      rw [List.getElem?_append, if_pos hidx]
      exact ih hyn
    · have hyeq : y = n := by omega
      subst hyeq
      have hge : ((List.range y).map g).flatten.length ≤ y * w + x := by omega
      rw [List.getElem?_append_right hge, hlenpre]
      simp [Nat.mul_comm]

/-- Length of the buffer built from `h` rows of uniform width `w`. -/
theorem flatten_range_length {α : Type} (g : Nat → List α) (w : Nat)
    (hg : ∀ y, (g y).length = w) (h : Nat) :
    (((List.range h).map g).flatten).length = w * h := by
  rw [List.length_flatten, List.map_map]
  have : (List.map (List.length ∘ g) (List.range h)) =
      List.map (fun _ => w) (List.range h) := by
    apply List.map_congr_left
    intro a _
    exact hg a
  rw [this]
  simp [Nat.mul_comm]

/-- The generator call trace contains no repeated argument pair. -/
theorem new_mappedCalls_nodup (w h : Nat) : (new_mappedCalls w h).Nodup := by
  unfold new_mappedCalls
  rw [List.nodup_flatten]
  constructor
  · intro l hl
    rcases List.mem_map.mp hl with ⟨n, _, rfl⟩
    exact (List.nodup_range w).map (fun a b hab => by simpa using hab)
  · rw [List.pairwise_map]
    refine List.Pairwise.imp ?_ (List.pairwise_lt_range h)
    intro a b hab p hpa hpb
    rcases List.mem_map.mp hpa with ⟨c, _, rfl⟩
    rcases List.mem_map.mp hpb with ⟨c', _, he⟩
    have : c' = c ∧ b = a := by simpa using he
    omega

/-- The generator call trace contains exactly the in-range cells. -/
theorem new_mappedCalls_mem (w h x y : Nat) :
    (x, y) ∈ new_mappedCalls w h ↔ x < w ∧ y < h := by
  unfold new_mappedCalls
  simp only [List.mem_flatten, List.mem_map, List.mem_range]
  constructor
  · rintro ⟨l, ⟨n, hn, rfl⟩, hp⟩
    rcases List.mem_map.mp hp with ⟨c, hc, he⟩
    have : c = x ∧ n = y := by simpa using he
    rcases this with ⟨rfl, rfl⟩
    exact ⟨List.mem_range.mp hc, hn⟩
  · rintro ⟨hx, hy⟩
    exact ⟨(List.range w).map (fun c => (c, y)), ⟨y, hy, rfl⟩,
      List.mem_map.mpr ⟨x, List.mem_range.mpr hx, rfl⟩⟩

/-! ### C4: `Space::get`/`Space::set` out-of-range behaviour -/

/-- C4: the claim says that for `x ≥ width` (here the 2×2 space and the
coordinate (2, 0)) `Space::get` returns the empty result and `Space::set`
returns the failure flag leaving the grid unchanged.  The code computes
the flat index `0*2+2 = 2`, which is inside the buffer, so `get (2, 0)`
returns the element of cell (0, 1) and `set (2, 0, 9)` reports success and
overwrites cell (0, 1): the claim (and the methods' own doc comments) are
violated. -/
theorem c4_get_set_wraparound :
    (2 : Nat) ≥ (Space.mk [1, 2, 3, 4] 2 2).width ∧
    Space.get (⟨[1, 2, 3, 4], 2, 2⟩ : Space Nat) 2 0 = some 3 ∧
    Space.set (⟨[1, 2, 3, 4], 2, 2⟩ : Space Nat) 2 0 9 =
      (true, ⟨[1, 2, 9, 4], 2, 2⟩) := by decide

/-! ### C5: the coordinate resolver -/

/-- C5: for every view (read-only or mutable), relative mode resolves
(x, y) to (origin_x + x, origin_y + y) iff `x ≤ width ∧ y ≤ height`
(boundary queries accepted), and absolute mode resolves (x, y) to itself
iff `origin_x ≤ x < origin_x + width ∧ origin_y ≤ y < origin_y + height`,
otherwise signalling no value. -/
theorem c5_convert_coord_spec {T : Type} (vr : SubSpace T) (vm : SubSpaceMut T)
    (x y : Nat) :
    (vr.convert_coord .Relative x y =
      if x ≤ vr.width ∧ y ≤ vr.height then some (vr.x + x, vr.y + y) else none) ∧
    (vr.convert_coord .Absolute x y =
      if vr.x ≤ x ∧ x < vr.x + vr.width ∧ vr.y ≤ y ∧ y < vr.y + vr.height then
        some (x, y)
      else none) ∧
    (vm.convert_coord .Relative x y =
      if x ≤ vm.width ∧ y ≤ vm.height then some (vm.x + x, vm.y + y) else none) ∧
    (vm.convert_coord .Absolute x y =
      if vm.x ≤ x ∧ x < vm.x + vm.width ∧ vm.y ≤ y ∧ y < vm.y + vm.height then
        some (x, y)
      else none) := by
  refine ⟨?_, ?_, ?_, ?_⟩ <;>
    simp only [SubSpace.convert_coord, SubSpaceMut.convert_coord] <;>
    split_ifs <;> first | rfl | omega

/-! ### C6: `set` then `get` on in-range cells -/

/-- C6: for every space whose buffer length matches `width * height` and
every in-range cell (x, y), `set` succeeds, a subsequent `get` at (x, y)
returns the written value, and every other in-range cell reads unchanged. -/
theorem c6_set_get_spec {T : Type} (s : Space T) (x y : Nat) (v : T)
    (hlen : s.data.length = s.width * s.height)
    (hx : x < s.width) (hy : y < s.height) :
    (s.set x y v).1 = true ∧
    ((s.set x y v).2).get x y = some v ∧
    ∀ x' y', x' < s.width → y' < s.height → (x', y') ≠ (x, y) →
      ((s.set x y v).2).get x' y' = s.get x' y' := by
  have hidx : y * s.width + x < s.data.length := by
    rw [hlen]; exact rowMajorIndex_lt hx hy
  have hset : s.set x y v =
      (true, { s with data := s.data.set (y * s.width + x) v }) := by
    unfold Space.set
    simp [hidx]
  refine ⟨by rw [hset], ?_, ?_⟩
  · rw [hset]
    unfold Space.get
    exact List.getElem?_set_eq_of_lt v hidx
  · intro x' y' hx' hy' hne
    rw [hset]
    unfold Space.get
    have hne' : y * s.width + x ≠ y' * s.width + x' := by
      intro he
      rcases rowMajorIndex_inj hx hx' he with ⟨rfl, rfl⟩
      exact hne rfl
    exact List.getElem?_set_ne hne'

/-- Witness for C6 at a concrete input. -/
theorem c6_set_get_spec_witness :
    (Space.mk [0, 0, 0, 0] 2 2).data.length = 2 * 2 ∧
    ((⟨[0, 0, 0, 0], 2, 2⟩ : Space Nat).set 1 0 5).1 = true ∧
    (((⟨[0, 0, 0, 0], 2, 2⟩ : Space Nat).set 1 0 5).2).get 1 0 = some 5 ∧
    (((⟨[0, 0, 0, 0], 2, 2⟩ : Space Nat).set 1 0 5).2).get 0 1 =
      (⟨[0, 0, 0, 0], 2, 2⟩ : Space Nat).get 0 1 := by
  have h := c6_set_get_spec (⟨[0, 0, 0, 0], 2, 2⟩ : Space Nat) 1 0 5
    (by decide) (by decide) (by decide)
  exact ⟨by decide, h.1, h.2.1, h.2.2 0 1 (by decide) (by decide) (by decide)⟩

/-! ### C8: `Space::new_mapped` (the spec's `create_generated`) -/

/-- C8: the grid built by `new_mapped f w h` satisfies
`get x y = some (f x y)` on every in-range cell, and the generator is
invoked once per in-range cell and only there, in row-major order
(y outer, x inner): the buffer equals the row-major call trace mapped
through the generator, and that trace lists each in-range cell exactly
once (it is duplicate-free and contains precisely the in-range cells). -/
theorem c8_new_mapped_spec {T : Type} (f : Nat → Nat → T) (w h : Nat) :
    (∀ x y, x < w → y < h → (Space.new_mapped f w h).get x y = some (f x y)) ∧
    (Space.new_mapped f w h).data =
      (new_mappedCalls w h).map (fun p => f p.1 p.2) ∧
    (new_mappedCalls w h).Nodup ∧
    (∀ x y, (x, y) ∈ new_mappedCalls w h ↔ x < w ∧ y < h) := by
  refine ⟨?_, ?_, new_mappedCalls_nodup w h, fun x y => new_mappedCalls_mem w h x y⟩
  · intro x y hx hy
    unfold Space.get Space.new_mapped
    simp only
    rw [flatten_range_getElem (fun b => (List.range w).map (fun a => f a b)) w
      (fun b => by simp) h x y hx hy]
    rw [List.getElem?_map, List.getElem?_range hx]
    rfl
  · unfold Space.new_mapped new_mappedCalls
    simp only [List.map_flatten, List.map_map]
    congr 1
    apply List.map_congr_left
    intro a _
    simp [Function.comp_def, List.map_map]

/-- Witness for C8 at a concrete generator and cell. -/
theorem c8_new_mapped_spec_witness :
    (Space.new_mapped (fun x y => x + 10 * y) 3 2).get 2 1 = some 12 ∧
    ((2, 1) ∈ new_mappedCalls 3 2 ↔ 2 < 3 ∧ 1 < 2) :=
  ⟨(c8_new_mapped_spec (fun x y => x + 10 * y) 3 2).1 2 1 (by decide) (by decide),
   (c8_new_mapped_spec (fun x y => x + 10 * y) 3 2).2.2.2 2 1⟩

/-! ### C1: write isolation between split siblings -/

/-- C1: the claim says a successful write through one child of a split is
never observable through any `get` on the sibling.  The code violates it:
on the 2×1 space `[10, 20]`, `split_horizontal(Absolute, 1)` yields
`left` (origin 0, width 1) and `right` (origin 1, width 1); the write
`right.set(Relative, 0, 0, 99)` succeeds and lands on absolute cell
(1, 0), yet `left.get(Relative, 1, 0)` — accepted by the permissive
relative resolver bound `x ≤ width` — reads that very cell: it returns
`some 20` before the write and `some 99` after it.  (The view whose
`parent` field holds the post-write space models the aliased state the
sibling observes through the shared pointer.) -/
theorem c1_sibling_write_observable :
    (Space.as_subspace_mut ⟨[10, 20], 2, 1⟩).split_horizontal .Absolute 1 =
      some (⟨⟨[10, 20], 2, 1⟩, 0, 0, 1, 1⟩, ⟨⟨[10, 20], 2, 1⟩, 1, 0, 1, 1⟩) ∧
    SubSpaceMut.set (⟨⟨[10, 20], 2, 1⟩, 1, 0, 1, 1⟩ : SubSpaceMut Nat)
      .Relative 0 0 99 = (true, ⟨⟨[10, 99], 2, 1⟩, 1, 0, 1, 1⟩) ∧
    SubSpaceMut.get (⟨⟨[10, 20], 2, 1⟩, 0, 0, 1, 1⟩ : SubSpaceMut Nat)
      .Relative 1 0 = some 20 ∧
    SubSpaceMut.get (⟨⟨[10, 99], 2, 1⟩, 0, 0, 1, 1⟩ : SubSpaceMut Nat)
      .Relative 1 0 = some 99 := by decide

/-! ### C2: the split validity check -/

/-- C2 counterexample: the claim says a split aborts iff the absolute
split column `right_x` lies outside `[origin_x, origin_x + width]`.  For
the read-only view at origin 2 of width 3 (extent `[2, 5]`) over a 5×1
space, the absolute split at column 4 lies inside that extent, yet the
code compares `right_x` against the view's *width* field
(`4 > 3`) and panics. -/
theorem c2_split_extent_cex :
    SubSpace.split_horizontal
      (⟨⟨[0, 0, 0, 0, 0], 5, 1⟩, 2, 0, 3, 1⟩ : SubSpace Nat) .Absolute 4 = none ∧
    2 ≤ 4 ∧ 4 ≤ 2 + 3 := by decide

/-- C2 amended: for every view (read-only or mutable) the split aborts
iff the computed absolute split coordinate exceeds the view's *width
field* (`right_x > width`, not `origin + width`) or falls below the
view's origin on that axis (where the `usize` subtraction
`right_x - left_x` underflows, a debug-build panic); symmetrically for
`split_vertical` on the y-axis against the height field.  It never
clamps: when the split returns, the children's geometry uses the
requested coordinate exactly. -/
theorem c2_split_abort_iff {T : Type} (vr : SubSpace T) (vm : SubSpaceMut T)
    (pt : PostioningType) (xv yv : Nat) :
    (vr.split_horizontal pt xv = none ↔
      resolveSplitCoord vr.x pt xv > vr.width ∨ resolveSplitCoord vr.x pt xv < vr.x) ∧
    (∀ l r, vr.split_horizontal pt xv = some (l, r) →
      l.x = vr.x ∧ r.x = resolveSplitCoord vr.x pt xv ∧
      l.width = resolveSplitCoord vr.x pt xv - vr.x ∧ l.width + r.width = vr.width) ∧
    (vr.split_vertical pt yv = none ↔
      resolveSplitCoord vr.y pt yv > vr.height ∨ resolveSplitCoord vr.y pt yv < vr.y) ∧
    (∀ a b, vr.split_vertical pt yv = some (a, b) →
      a.y = vr.y ∧ b.y = resolveSplitCoord vr.y pt yv ∧
      a.height = resolveSplitCoord vr.y pt yv - vr.y ∧ a.height + b.height = vr.height) ∧
    (vm.split_horizontal pt xv = none ↔
      resolveSplitCoord vm.x pt xv > vm.width ∨ resolveSplitCoord vm.x pt xv < vm.x) ∧
    (∀ l r, vm.split_horizontal pt xv = some (l, r) →
      l.x = vm.x ∧ r.x = resolveSplitCoord vm.x pt xv ∧
      l.width = resolveSplitCoord vm.x pt xv - vm.x ∧ l.width + r.width = vm.width) ∧
    (vm.split_vertical pt yv = none ↔
      resolveSplitCoord vm.y pt yv > vm.height ∨ resolveSplitCoord vm.y pt yv < vm.y) ∧
    (∀ a b, vm.split_vertical pt yv = some (a, b) →
      a.y = vm.y ∧ b.y = resolveSplitCoord vm.y pt yv ∧
      a.height = resolveSplitCoord vm.y pt yv - vm.y ∧ a.height + b.height = vm.height) := by
  refine ⟨?_, ?_, ?_, ?_, ?_, ?_, ?_, ?_⟩
  case refine_1 =>
    rw [SubSpace.split_horizontal]
    split_ifs with h1 h2
    · exact iff_of_true rfl (Or.inl h1)
    · exact iff_of_true rfl (Or.inr h2)
    · exact iff_of_false (by simp) (by omega)
  case refine_2 =>
    intro l r hs
    rw [SubSpace.split_horizontal] at hs
    split_ifs at hs with h1 h2
    obtain ⟨rfl, rfl⟩ : _ ∧ _ := by
      constructor <;> [exact congrArg Prod.fst (Option.some.inj hs).symm;
        exact congrArg Prod.snd (Option.some.inj hs).symm]
    exact ⟨rfl, rfl, rfl, by simp; omega⟩
  case refine_3 =>
    rw [SubSpace.split_vertical]
    split_ifs with h1 h2
    · exact iff_of_true rfl (Or.inl h1)
    · exact iff_of_true rfl (Or.inr h2)
    · exact iff_of_false (by simp) (by omega)
  case refine_4 =>
    intro a b hs
    rw [SubSpace.split_vertical] at hs
    split_ifs at hs with h1 h2
    obtain ⟨rfl, rfl⟩ : _ ∧ _ := by
      constructor <;> [exact congrArg Prod.fst (Option.some.inj hs).symm;
        exact congrArg Prod.snd (Option.some.inj hs).symm]
    exact ⟨rfl, rfl, rfl, by simp; omega⟩
  case refine_5 =>
    rw [SubSpaceMut.split_horizontal]
    split_ifs with h1 h2
    · exact iff_of_true rfl (Or.inl h1)
    · exact iff_of_true rfl (Or.inr h2)
    · exact iff_of_false (by simp) (by omega)
  case refine_6 =>
    intro l r hs
    rw [SubSpaceMut.split_horizontal] at hs
    split_ifs at hs with h1 h2
    obtain ⟨rfl, rfl⟩ : _ ∧ _ := by
      constructor <;> [exact congrArg Prod.fst (Option.some.inj hs).symm;
        exact congrArg Prod.snd (Option.some.inj hs).symm]
    exact ⟨rfl, rfl, rfl, by simp; omega⟩
  case refine_7 =>
    rw [SubSpaceMut.split_vertical]
    split_ifs with h1 h2
    · exact iff_of_true rfl (Or.inl h1)
    · exact iff_of_true rfl (Or.inr h2)
    · exact iff_of_false (by simp) (by omega)
  case refine_8 =>
    intro a b hs
    rw [SubSpaceMut.split_vertical] at hs
    split_ifs at hs with h1 h2
    obtain ⟨rfl, rfl⟩ : _ ∧ _ := by
      constructor <;> [exact congrArg Prod.fst (Option.some.inj hs).symm;
        exact congrArg Prod.snd (Option.some.inj hs).symm]
    exact ⟨rfl, rfl, rfl, by simp; omega⟩

/-- Witness for C2 amended, at a concrete aborting split and a concrete
returning split. -/
theorem c2_split_abort_iff_witness :
    ((⟨⟨[0, 0, 0, 0, 0], 5, 1⟩, 2, 0, 3, 1⟩ : SubSpace Nat).split_horizontal
        .Absolute 4 = none ↔
      resolveSplitCoord 2 .Absolute 4 > 3 ∨ resolveSplitCoord 2 .Absolute 4 < 2) ∧
    (SubSpaceMut.mk ⟨[7, 8], 2, 1⟩ 0 0 2 1).split_horizontal .Relative 1 =
      some (⟨⟨[7, 8], 2, 1⟩, 0, 0, 1, 1⟩, ⟨⟨[7, 8], 2, 1⟩, 1, 0, 1, 1⟩) ∧
    (1 : Nat) + 1 = 2 := by
  have h := c2_split_abort_iff
    (⟨⟨[0, 0, 0, 0, 0], 5, 1⟩, 2, 0, 3, 1⟩ : SubSpace Nat)
    (⟨⟨[7, 8], 2, 1⟩, 0, 0, 2, 1⟩ : SubSpaceMut Nat) .Absolute 4 0
  have h2 := c2_split_abort_iff
    (⟨⟨[0, 0, 0, 0, 0], 5, 1⟩, 2, 0, 3, 1⟩ : SubSpace Nat)
    (⟨⟨[7, 8], 2, 1⟩, 0, 0, 2, 1⟩ : SubSpaceMut Nat) .Relative 1 0
  refine ⟨h.1, by decide, ?_⟩
  exact (h2.2.2.2.2.2.1 ⟨⟨[7, 8], 2, 1⟩, 0, 0, 1, 1⟩ ⟨⟨[7, 8], 2, 1⟩, 1, 0, 1, 1⟩
    (by decide)).2.2.2

/-! ### C3: split coverage of the parent's cells -/

/-- C3 counterexample: the claim says no cell is reachable from both
children under relative addressing.  Splitting the full view of the 2×1
space `[7, 8]` at column 1 yields `left` (origin 0, width 1) and `right`
(origin 1, width 1); the permissive relative resolver (`x ≤ width`)
resolves `left`'s query (1, 0) and `right`'s query (0, 0) to the same
absolute cell (1, 0), and both `get`s return its value `8`: the boundary
cell is reachable from both children. -/
theorem c3_split_coverage_cex :
    (Space.as_subspace ⟨[7, 8], 2, 1⟩).split_horizontal .Relative 1 =
      some (⟨⟨[7, 8], 2, 1⟩, 0, 0, 1, 1⟩, ⟨⟨[7, 8], 2, 1⟩, 1, 0, 1, 1⟩) ∧
    (0 : Nat) ≤ 1 ∧ 1 ≤ 2 ∧
    SubSpace.convert_coord (⟨⟨[7, 8], 2, 1⟩, 0, 0, 1, 1⟩ : SubSpace Nat)
      .Relative 1 0 = some (1, 0) ∧
    SubSpace.convert_coord (⟨⟨[7, 8], 2, 1⟩, 1, 0, 1, 1⟩ : SubSpace Nat)
      .Relative 0 0 = some (1, 0) ∧
    SubSpace.get (⟨⟨[7, 8], 2, 1⟩, 0, 0, 1, 1⟩ : SubSpace Nat)
      .Relative 1 0 = some 8 ∧
    SubSpace.get (⟨⟨[7, 8], 2, 1⟩, 1, 0, 1, 1⟩ : SubSpace Nat)
      .Relative 0 0 = some 8 := by decide

/-- C3 amended: for every view (read-only or mutable) and every split
call that returns children, `left.width + right.width = W`, and the
children's half-open cell rectangles (relative coordinates strictly below
width/height, i.e. absolute cells strictly inside each child) partition
the parent's half-open rectangle exactly: their union is the parent's
cell set and no cell lies in both. -/
theorem c3_split_partition {T : Type} :
    (∀ (v l r : SubSpace T) (pt : PostioningType) (xv : Nat),
      v.split_horizontal pt xv = some (l, r) →
      l.width + r.width = v.width ∧
      ∀ a b, ((l.memRect a b ∨ r.memRect a b) ↔ v.memRect a b) ∧
        ¬(l.memRect a b ∧ r.memRect a b)) ∧
    (∀ (v l r : SubSpaceMut T) (pt : PostioningType) (xv : Nat),
      v.split_horizontal pt xv = some (l, r) →
      l.width + r.width = v.width ∧
      ∀ a b, ((l.memRect a b ∨ r.memRect a b) ↔ v.memRect a b) ∧
        ¬(l.memRect a b ∧ r.memRect a b)) := by
  constructor
  · intro v l r pt xv hs
    rw [SubSpace.split_horizontal] at hs
    split_ifs at hs with h1 h2
    obtain ⟨rfl, rfl⟩ : _ ∧ _ := by
      constructor <;> [exact congrArg Prod.fst (Option.some.inj hs).symm;
        exact congrArg Prod.snd (Option.some.inj hs).symm]
    refine ⟨by simp; omega, ?_⟩
    intro a b
    simp only [SubSpace.memRect]
    omega
  · intro v l r pt xv hs
    rw [SubSpaceMut.split_horizontal] at hs
    split_ifs at hs with h1 h2
    obtain ⟨rfl, rfl⟩ : _ ∧ _ := by
      constructor <;> [exact congrArg Prod.fst (Option.some.inj hs).symm;
        exact congrArg Prod.snd (Option.some.inj hs).symm]
    refine ⟨by simp; omega, ?_⟩
    intro a b
    simp only [SubSpaceMut.memRect]
    omega

/-- Witness for C3 amended at a concrete split. -/
theorem c3_split_partition_witness :
    ((⟨⟨[7, 8], 2, 1⟩, 0, 0, 1, 1⟩ : SubSpace Nat).width +
      (⟨⟨[7, 8], 2, 1⟩, 1, 0, 1, 1⟩ : SubSpace Nat).width =
      (Space.as_subspace ⟨[7, 8], 2, 1⟩).width) ∧
    ((⟨⟨[7, 8], 2, 1⟩, 0, 0, 1, 1⟩ : SubSpace Nat).memRect 1 0 ∨
        (⟨⟨[7, 8], 2, 1⟩, 1, 0, 1, 1⟩ : SubSpace Nat).memRect 1 0) ∧
    ¬((⟨⟨[7, 8], 2, 1⟩, 0, 0, 1, 1⟩ : SubSpace Nat).memRect 1 0 ∧
        (⟨⟨[7, 8], 2, 1⟩, 1, 0, 1, 1⟩ : SubSpace Nat).memRect 1 0) := by
  have h := c3_split_partition.1 (Space.as_subspace ⟨[7, 8], 2, 1⟩)
    ⟨⟨[7, 8], 2, 1⟩, 0, 0, 1, 1⟩ ⟨⟨[7, 8], 2, 1⟩, 1, 0, 1, 1⟩ .Relative 1 (by decide)
  exact ⟨h.1, ((h.2 1 0).1).mpr (by decide), (h.2 1 0).2⟩

/-! ### C9: splitting is pure rectangle geometry -/

/-- C9: every split that returns leaves the underlying space untouched
and hands both children the same parent space as the view that was split:
the children's `parent` fields equal the parent view's, so every element
of the space is unchanged. -/
theorem c9_split_pure_geometry {T : Type} :
    (∀ (v l r : SubSpace T) (pt : PostioningType) (c : Nat),
      v.split_horizontal pt c = some (l, r) →
      l.parent = v.parent ∧ r.parent = v.parent ∧
      l.parent.data = v.parent.data ∧ r.parent.data = v.parent.data) ∧
    (∀ (v a b : SubSpace T) (pt : PostioningType) (c : Nat),
      v.split_vertical pt c = some (a, b) →
      a.parent = v.parent ∧ b.parent = v.parent ∧
      a.parent.data = v.parent.data ∧ b.parent.data = v.parent.data) ∧
    (∀ (v l r : SubSpaceMut T) (pt : PostioningType) (c : Nat),
      v.split_horizontal pt c = some (l, r) →
      l.parent = v.parent ∧ r.parent = v.parent ∧
      l.parent.data = v.parent.data ∧ r.parent.data = v.parent.data) ∧
    (∀ (v a b : SubSpaceMut T) (pt : PostioningType) (c : Nat),
      v.split_vertical pt c = some (a, b) →
      a.parent = v.parent ∧ b.parent = v.parent ∧
      a.parent.data = v.parent.data ∧ b.parent.data = v.parent.data) := by
  refine ⟨?_, ?_, ?_, ?_⟩ <;>
    (intro v l r pt c hs) <;>
    simp only [SubSpace.split_horizontal, SubSpace.split_vertical,
      SubSpaceMut.split_horizontal, SubSpaceMut.split_vertical] at hs <;>
    split_ifs at hs <;>
    obtain ⟨rfl, rfl⟩ : _ ∧ _ := by
      constructor <;> [exact congrArg Prod.fst (Option.some.inj hs).symm;
        exact congrArg Prod.snd (Option.some.inj hs).symm]
  all_goals exact ⟨rfl, rfl, rfl, rfl⟩

/-- Witness for C9 at a concrete split. -/
theorem c9_split_pure_geometry_witness :
    (⟨⟨[7, 8], 2, 1⟩, 0, 0, 1, 1⟩ : SubSpace Nat).parent =
      (Space.as_subspace ⟨[7, 8], 2, 1⟩).parent ∧
    (⟨⟨[7, 8], 2, 1⟩, 1, 0, 1, 1⟩ : SubSpace Nat).parent.data =
      (Space.as_subspace ⟨[7, 8], 2, 1⟩).parent.data := by
  have h := c9_split_pure_geometry.1 (Space.as_subspace ⟨[7, 8], 2, 1⟩)
    ⟨⟨[7, 8], 2, 1⟩, 0, 0, 1, 1⟩ ⟨⟨[7, 8], 2, 1⟩, 1, 0, 1, 1⟩ .Relative 1 (by decide)
  exact ⟨h.1, h.2.2.2⟩

/-! ### Iterator lemmas -/

/-- The relative arm of the read-only resolver, as a single conditional. -/
theorem convert_coord_relative {T : Type} (v : SubSpace T) (x y : Nat) :
    v.convert_coord .Relative x y =
      if x > v.width ∨ y > v.height then none else some (v.x + x, v.y + y) := rfl

/-- With a positive width the cursor after `k` steps from (0, 0) is
`(k % width, k / width)`. -/
theorem iterStepsFrom_start {T : Type} (v : SubSpace T) (hw : 1 ≤ v.width) (k : Nat) :
    iterStepsFrom v ⟨0, 0⟩ k = some ⟨k % v.width, k / v.width⟩ := by
  induction k with
  | zero => simp [iterStepsFrom]
  | succ n ih =>
    rw [iterStepsFrom, ih]
    simp only [Option.some_bind]
    rw [SubSpaceIter.next]
    simp only
    rw [if_neg (by omega)]
    have hd := Nat.div_add_mod n v.width
    have hm : n % v.width < v.width := Nat.mod_lt n (by omega)
    by_cases hb : n % v.width = v.width - 1
    · rw [if_pos hb]
      have e2 : v.width * (n / v.width + 1) = v.width * (n / v.width) + v.width := by
        ring
      have e : n + 1 = v.width * (n / v.width + 1) := by omega
      have em : (n + 1) % v.width = 0 := by rw [e]; exact Nat.mul_mod_right _ _
      have ed : (n + 1) / v.width = n / v.width + 1 := by
        rw [e]; exact Nat.mul_div_cancel_left _ (by omega)
      rw [em, ed]
      rfl
    · rw [if_neg hb]
      have e : n + 1 = v.width * (n / v.width) + (n % v.width + 1) := by omega
      have hlt : n % v.width + 1 < v.width := by omega
      have em : (n + 1) % v.width = n % v.width + 1 := by
        rw [e, Nat.mul_add_mod, Nat.mod_eq_of_lt hlt]
      have ed : (n + 1) / v.width = n / v.width := by
        rw [e, Nat.mul_add_div (show 0 < v.width by omega), Nat.div_eq_of_lt hlt]
        omega
      rw [em, ed]
      rfl

/-! ### C10: iterator totality -/

/-- C10: on a view of width 0 every call to `next` hits the unguarded
`width - 1` underflow and aborts; with width ≥ 1 `next` is total (never
aborts) from any cursor, and the iteration started by `iter()` eventually
yields the empty result: after `width * (height + 1)` steps the cursor
stands at (0, height + 1), whose relative read resolves to `none`. -/
theorem c10_iter_totality {T : Type} :
    (∀ (v : SubSpace T) (st : SubSpaceIter), v.width = 0 →
      SubSpaceIter.next v st = none) ∧
    (∀ (v : SubSpace T) (st : SubSpaceIter), 1 ≤ v.width →
      (SubSpaceIter.next v st).isSome = true) ∧
    (∀ (v : SubSpace T), 1 ≤ v.width →
      iterResultAt v (v.width * (v.height + 1)) = some none) := by
  refine ⟨?_, ?_, ?_⟩
  · intro v st hw
    rw [SubSpaceIter.next]
    simp [hw]
  · intro v st hw
    rw [SubSpaceIter.next]
    rw [if_neg (by omega)]
    split_ifs <;> rfl
  · intro v hw
    have hst : iterStepsFrom v ⟨0, 0⟩ (v.width * (v.height + 1)) =
        some ⟨0, v.height + 1⟩ := by
      rw [iterStepsFrom_start v hw]
      rw [Nat.mul_mod_right, Nat.mul_div_cancel_left _ (by omega)]
    have hres : v.get .Relative 0 (v.height + 1) = none := by
      rw [SubSpace.get, convert_coord_relative, if_pos (Or.inr (by omega))]
      rfl
    rw [iterResultAt, SubSpace.iter, hst]
    simp only [Option.some_bind]
    rw [SubSpaceIter.next]
    simp only
    rw [if_neg (by omega)]
    split_ifs <;> simp [hres]

/-- Witness for C10: a width-0 view aborts on the first `next`; a 1×1
view's `next` is total and its iteration reaches the empty result. -/
theorem c10_iter_totality_witness :
    SubSpaceIter.next (⟨⟨[], 0, 3⟩, 0, 0, 0, 3⟩ : SubSpace Nat) ⟨0, 0⟩ = none ∧
    (SubSpaceIter.next (⟨⟨[5], 1, 1⟩, 0, 0, 1, 1⟩ : SubSpace Nat) ⟨0, 0⟩).isSome =
      true ∧
    iterResultAt (⟨⟨[5], 1, 1⟩, 0, 0, 1, 1⟩ : SubSpace Nat) (1 * (1 + 1)) =
      some none :=
  ⟨c10_iter_totality.1 ⟨⟨[], 0, 3⟩, 0, 0, 0, 3⟩ ⟨0, 0⟩ rfl,
   c10_iter_totality.2.1 ⟨⟨[5], 1, 1⟩, 0, 0, 1, 1⟩ ⟨0, 0⟩ (by decide),
   c10_iter_totality.2.2 ⟨⟨[5], 1, 1⟩, 0, 0, 1, 1⟩ (by decide)⟩

/-! ### C7: materializing the full view round-trips -/

/-- On the full view of a grid with a positive width, pulling `k` items
from the iterator starting at cursor (x, y) collects exactly the buffer
segment of length `k` beginning at flat index `y * width + x`, in
row-major order. -/
theorem clone_from_iterAux_full {T : Type} (g : Space T)
    (hlen : g.data.length = g.width * g.height) (hw : 1 ≤ g.width) :
    ∀ (k x y : Nat), x < g.width →
      y * g.width + x + k ≤ g.width * g.height →
      clone_from_iterAux g.as_subspace k ⟨x, y⟩ =
        some ((g.data.drop (y * g.width + x)).take k) := by
  intro k
  induction k with
  | zero =>
    intro x y _ _
    simp [clone_from_iterAux]
  | succ n ih =>
    intro x y hx hb
    have hy : y < g.height := by
      have h1 : g.width * y < g.width * g.height := by
        have : y * g.width < g.width * g.height := by omega
        rw [Nat.mul_comm y g.width] at this
        exact this
      exact Nat.lt_of_mul_lt_mul_left h1
    have hidx : y * g.width + x < g.data.length := by rw [hlen]; omega
    have hres : (g.as_subspace).get .Relative x y =
        some (g.data.get ⟨y * g.width + x, hidx⟩) := by
      rw [SubSpace.get, convert_coord_relative]
      rw [if_neg (by simp [Space.as_subspace]; omega)]
      simp [Space.as_subspace, Space.get, List.getElem?_eq_getElem hidx]
    rw [clone_from_iterAux]
    rw [SubSpaceIter.next]
    simp only [hres]
    rw [if_neg (by simp [Space.as_subspace]; omega)]
    have hsw : (Space.as_subspace g).width = g.width := rfl
    by_cases hlast : x = (Space.as_subspace g).width - 1
    · rw [if_pos hlast]
      rw [hsw] at hlast
      have hnext : (y + 1) * g.width + 0 = y * g.width + x + 1 := by
        rw [Nat.succ_mul]
        omega
      have hrec := ih 0 (y + 1) (by omega) (by omega)
      dsimp only
      rw [hrec, hnext]
      simp only [Option.map_some']
      congr 1
      rw [List.drop_eq_getElem_cons hidx, List.take_succ_cons]
      rfl
    · rw [if_neg hlast]
      rw [hsw] at hlast
      have hx1 : x + 1 < g.width := by omega
      have hrec := ih (x + 1) y hx1 (by omega)
      have hnext : y * g.width + (x + 1) = y * g.width + x + 1 := by omega
      dsimp only
      rw [hrec, hnext]
      simp only [Option.map_some']
      congr 1
      rw [List.drop_eq_getElem_cons hidx, List.take_succ_cons]
      rfl

/-- C7: materializing the full read-only view of any grid (`as_space`
after `as_subspace`) succeeds and yields a grid equal to the original —
same width, same height, every cell equal — the clone being collected by
iterating the view in row-major order. -/
theorem c7_as_space_round_trip {T : Type} (g : Space T)
    (hlen : g.data.length = g.width * g.height) :
    g.as_subspace.as_space = some g := by
  rcases Nat.eq_zero_or_pos g.width with hw | hw
  · have hempty : g.data = [] := by
      have : g.data.length = 0 := by rw [hlen, hw]; ring
      exact List.eq_nil_of_length_eq_zero this
    rw [SubSpace.as_space]
    have hwh : (Space.as_subspace g).width * (Space.as_subspace g).height = 0 := by
      simp [Space.as_subspace, hw]
    rw [hwh]
    rw [show clone_from_iterAux g.as_subspace 0 g.as_subspace.iter = some [] from rfl]
    cases g
    simp_all [Space.as_subspace]
  · rw [SubSpace.as_space]
    have hk := clone_from_iterAux_full g hlen hw (g.width * g.height) 0 0 hw
      (by omega)
    rw [show (0 : Nat) * g.width + 0 = 0 from by omega] at hk
    rw [show (Space.as_subspace g).width * (Space.as_subspace g).height =
      g.width * g.height from rfl]
    rw [show (Space.as_subspace g).iter = (⟨0, 0⟩ : SubSpaceIter) from rfl]
    rw [hk]
    simp only [List.drop_zero, Option.map_some']
    rw [← hlen, List.take_length]
    cases g
    rfl

/-- Witness for C7 at a concrete grid. -/
theorem c7_as_space_round_trip_witness :
    (Space.mk [1, 2, 3, 4, 5, 6] 3 2).data.length = 3 * 2 ∧
    (Space.as_subspace (⟨[1, 2, 3, 4, 5, 6], 3, 2⟩ : Space Nat)).as_space =
      some ⟨[1, 2, 3, 4, 5, 6], 3, 2⟩ :=
  ⟨by decide, c7_as_space_round_trip ⟨[1, 2, 3, 4, 5, 6], 3, 2⟩ (by decide)⟩

end SpatialSlice
